import Mathlib

/-!
Verification of the akdb core: the transaction lock manager
(`src/trans/transaction.c`) and the projection equivalence rewriter
(`src/opti/rel_eq_projection.c`), as a shallow embedding in Lean 4.

Conventions of the embedding:
* C integers that only name enumeration values (`SHARED_LOCK`,
  `EXCLUSIVE_LOCK`, `PASS_LOCK_QUEUE`, `WAIT_FOR_UNLOCK`, `OK`, `NOT_OK`,
  `COMMIT`, `ABORT`) become inductive types.  The header `constants.h` that
  defines the numeric values is not part of the sources; only the relative
  meaning of the values is used by the code (`while (!lock->isWaiting)`
  loops exactly while the stored value is `WAIT_FOR_UNLOCK`, and
  `if (!AK_get_memory_blocks(..))` branches exactly on `NOT_OK`), and the
  inductives capture that meaning.
* `pthread_t` transaction identities become `Nat`; `pthread_equal` becomes
  equality.
* The circular doubly linked waiter queue of a resource becomes a
  `List` in queue order (head of the list = `DLLLocksHead`); a waiter is
  identified by its position, which stands for the C pointer identity
  (`tmp == lock` holds exactly for the waiter at position 0, because
  `AK_isLock_waiting` compares the queue head `tmp` with the waiter under
  evaluation).
* The hash table `LockTable[NUMBER_OF_KEYS]` with per-bucket circular
  chains becomes a flat list of resource records: lookups
  (`AK_search_existing_link_for_hook`) hash the address and then compare
  the full `address` field inside the bucket, so bucketing only partitions
  the record set and an exact-address association list is observationally
  the same structure.  (`NUMBER_OF_KEYS` again lives in the missing
  `constants.h`.)
-/

namespace AkDb

/-- Lock mode: `SHARED_LOCK` / `EXCLUSIVE_LOCK` from the missing
`constants.h`; only their distinctness is used by `transaction.c`. -/
inductive LockType where
  | SHARED_LOCK
  | EXCLUSIVE_LOCK
deriving DecidableEq, Repr

/-- Result of the compatibility oracle, stored in a waiter's `isWaiting`
field.  `PASS_LOCK_QUEUE` means granted; `AK_acquire_lock` blocks while the
field holds `WAIT_FOR_UNLOCK`. -/
inductive LockStatus where
  | PASS_LOCK_QUEUE
  | WAIT_FOR_UNLOCK
deriving DecidableEq, Repr

/-- `struct transaction_locks_list_elem`: one waiter in a resource's queue
(`TransactionId`, `lock_type`, `isWaiting`); the `nextLock`/`prevLock`
pointers are represented by the position in the enclosing list. -/
structure AK_transaction_lock_elem where
  TransactionId : Nat
  lock_type : LockType
  isWaiting : LockStatus
deriving DecidableEq, Repr

/-- `struct transaction_list_elem`: one resource lock record (`address`,
current `lock_type`, waiter queue `DLLLocksHead`); the bucket chain
pointers are represented by membership in the table list. -/
structure AK_transaction_elem where
  address : Int
  lock_type : LockType
  DLLLocksHead : List AK_transaction_lock_elem
deriving DecidableEq, Repr

/-- The lock table: the set of resource lock records currently present in
some bucket of `LockTable[NUMBER_OF_KEYS]` (see the header comment for why
a flat list is an equivalent rendering of the bucketed table). -/
abbrev LockTable := List AK_transaction_elem

/-- `AK_search_existing_link_for_hook`: find the resource record for a
block address (the C scans the bucket ring once comparing `address`). -/
def AK_search_existing_link_for_hook (t : LockTable) (blockAddress : Int) :
    Option AK_transaction_elem :=
  t.find? (fun r => r.address = blockAddress)

/-- In-place mutation of the record found by
`AK_search_existing_link_for_hook`: replace the first record with the given
address. -/
def replaceRecord : LockTable → Int → AK_transaction_elem → LockTable
  | [], _, _ => []
  | r :: rs, a, e =>
    if r.address = a then e :: rs else r :: replaceRecord rs a e

/-- `AK_isLock_waiting` (transaction.c:237-261).  Decides whether the
waiter under evaluation may pass the queue.  `tmp` is the queue head
`lockHolder->DLLLocksHead`; the pointer test `tmp == lock` is rendered as
`lockIdx = 0` (the waiter under evaluation sits at `lockIdx`).  Returns the
status together with the record's `lock_type`, which the head branch
overwrites with `type`.  The C never calls this with an empty queue (every
caller first inserts the waiter); the `[]` branch is the vacuous default. -/
def AK_isLock_waiting (lockHolder : AK_transaction_elem) (type : LockType)
    (transactionId : Nat) (lockIdx : Nat) : LockStatus × LockType :=
  match lockHolder.DLLLocksHead with
  | [] => (LockStatus.WAIT_FOR_UNLOCK, lockHolder.lock_type)
  | tmp :: _ =>
    if lockIdx = 0 then
      (LockStatus.PASS_LOCK_QUEUE, type)
    else if tmp.lock_type = LockType.SHARED_LOCK then
      if type = LockType.SHARED_LOCK then
        (LockStatus.PASS_LOCK_QUEUE, lockHolder.lock_type)
      else
        (LockStatus.WAIT_FOR_UNLOCK, lockHolder.lock_type)
    else
      if tmp.TransactionId = transactionId then
        (LockStatus.PASS_LOCK_QUEUE, lockHolder.lock_type)
      else
        (LockStatus.WAIT_FOR_UNLOCK, lockHolder.lock_type)

/-- `AK_add_lock` (transaction.c:273-296): append a fresh waiter at the
tail of the circular queue (the C splices the new node before the head,
i.e. at the tail), then evaluate `AK_isLock_waiting` for it and store the
verdict in its `isWaiting` field.  The oracle runs with the new waiter
already in the queue, at index `length` of the old queue. -/
def AK_add_lock (HashList : AK_transaction_elem) (type : LockType)
    (transactionId : Nat) : AK_transaction_elem :=
  let q := HashList.DLLLocksHead
  let res := AK_isLock_waiting
    { HashList with
      DLLLocksHead :=
        q ++ [⟨transactionId, type, LockStatus.WAIT_FOR_UNLOCK⟩] }
    type transactionId q.length
  { address := HashList.address
    lock_type := res.2
    DLLLocksHead := q ++ [⟨transactionId, type, res.1⟩] }

/-- `AK_create_lock` (transaction.c:306-313): find the resource record,
create it if absent (`AK_add_hash_entry_list` initialises the record with
the requested `type` and an empty queue and links it into its bucket), and
add the waiter.  This is the whole state effect of the enqueue phase of
`AK_acquire_lock`. -/
def AK_create_lock_state (t : LockTable) (blockAddress : Int)
    (type : LockType) (transactionId : Nat) : LockTable :=
  match AK_search_existing_link_for_hook t blockAddress with
  | some elem => replaceRecord t blockAddress (AK_add_lock elem type transactionId)
  | none =>
    t ++ [AK_add_lock ⟨blockAddress, type, []⟩ type transactionId]

/-- One wake-up re-evaluation inside the `while (!lock->isWaiting)` loop of
`AK_acquire_lock` (transaction.c:337-344): a still-waiting waiter at
`lockIdx` re-runs `AK_isLock_waiting` with its own mode and transaction
identity and stores the verdict (the head branch also overwrites the
record's `lock_type`).  The condition variable is broadcast-only, so any
waiting waiter of any record may take this step at any time. -/
def recheckLock (t : LockTable) (blockAddress : Int) (lockIdx : Nat) :
    LockTable :=
  match AK_search_existing_link_for_hook t blockAddress with
  | none => t
  | some elem =>
    match elem.DLLLocksHead[lockIdx]? with
    | none => t
    | some w =>
      if w.isWaiting = LockStatus.WAIT_FOR_UNLOCK then
        let res := AK_isLock_waiting elem w.lock_type w.TransactionId lockIdx
        replaceRecord t blockAddress
          { elem with
            lock_type := res.2
            DLLLocksHead :=
              elem.DLLLocksHead.set lockIdx { w with isWaiting := res.1 } }
      else t

/-- `AK_delete_lock_entry_list` (transaction.c:195-226): repeatedly search
the queue for an entry of the given transaction and unlink it, until none
is left — i.e. remove every waiter whose `TransactionId` matches.  This is
the per-block state effect of `AK_release_locks` (the inner loop of
`AK_release_locks` at lines 383-391 only reads flags; the advancement of
the new head is commented out in the source). -/
def AK_delete_lock_entry_list_state (t : LockTable) (blockAddress : Int)
    (transactionId : Nat) : LockTable :=
  match AK_search_existing_link_for_hook t blockAddress with
  | none => t
  | some elem =>
    replaceRecord t blockAddress
      { elem with
        DLLLocksHead :=
          elem.DLLLocksHead.filter (fun w => w.TransactionId ≠ transactionId) }

/-- `AK_delete_hash_entry_list` (transaction.c:137-161): unlink the
resource record with the given address from its bucket (the first one
found, matching the C's single ring scan); leaves the table unchanged when
no record matches (the `NOT_OK` branch). -/
def AK_delete_hash_entry_list (t : LockTable) (blockAddress : Int) :
    LockTable :=
  match t with
  | [] => []
  | r :: rs =>
    if r.address = blockAddress then rs
    else r :: AK_delete_hash_entry_list rs blockAddress

/-- The atomic steps of the lock table: the enqueue phase of
`AK_acquire_lock`, one wake-up re-evaluation inside its wait loop, and the
per-block release of `AK_release_locks`.  Each runs under the table-wide
mutex in the C. -/
inductive LockOp where
  | acquire (blockAddress : Int) (type : LockType) (transactionId : Nat)
  | recheck (blockAddress : Int) (lockIdx : Nat)
  | release (blockAddress : Int) (transactionId : Nat)
deriving DecidableEq, Repr

def applyLockOp (t : LockTable) : LockOp → LockTable
  | LockOp.acquire a ty tid => AK_create_lock_state t a ty tid
  | LockOp.recheck a idx => recheckLock t a idx
  | LockOp.release a tid => AK_delete_lock_entry_list_state t a tid

/-- Run a sequence of lock-table steps from the initial (empty) table
(`AK_test_Transaction` starts from `memset(LockTable, 0, ...)`). -/
def runLockOps (ops : List LockOp) : LockTable :=
  ops.foldl applyLockOp []

def LockOp.isRelease : LockOp → Bool
  | LockOp.release _ _ => true
  | _ => false

/-- A waiter is granted when its stored verdict is `PASS_LOCK_QUEUE`. -/
def granted (w : AK_transaction_lock_elem) : Prop :=
  w.isWaiting = LockStatus.PASS_LOCK_QUEUE

instance (w : AK_transaction_lock_elem) : Decidable (granted w) := by
  unfold granted; infer_instance

/-- Mutual exclusion on one resource record, as claimed: if some
transaction holds the exclusive lock granted, every other granted waiter
belongs to the same transaction (so no exclusive grant coexists with a
shared or exclusive grant of a different transaction). -/
def MutexOk (r : AK_transaction_elem) : Prop :=
  ∀ w1 ∈ r.DLLLocksHead, ∀ w2 ∈ r.DLLLocksHead,
    granted w1 → granted w2 → w1.lock_type = LockType.EXCLUSIVE_LOCK →
      w1.TransactionId = w2.TransactionId

instance (r : AK_transaction_elem) : Decidable (MutexOk r) := by
  unfold MutexOk; infer_instance

/-- Compatibility of a non-head waiter `w` with the queue head `h`, as the
oracle enforces at grant time: shared coalescing with a shared head, or
re-entry on a head of the same transaction. -/
def waiterOk (h w : AK_transaction_lock_elem) : Prop :=
  (h.lock_type = LockType.SHARED_LOCK ∧ w.lock_type = LockType.SHARED_LOCK) ∨
  (h.lock_type = LockType.EXCLUSIVE_LOCK ∧ w.TransactionId = h.TransactionId)

instance (h w : AK_transaction_lock_elem) : Decidable (waiterOk h w) := by
  unfold waiterOk; infer_instance

/-- Invariant of a resource record under acquire and re-check steps: the
queue head is granted, and every granted waiter behind it is compatible
with the head. -/
def recordInv (r : AK_transaction_elem) : Prop :=
  match r.DLLLocksHead with
  | [] => True
  | hd :: rest => granted hd ∧ ∀ w ∈ rest, granted w → waiterOk hd w

instance (r : AK_transaction_elem) : Decidable (recordInv r) :=
  match h : r.DLLLocksHead with
  | [] => isTrue (by simp [recordInv, h])
  | hd :: rest =>
    decidable_of_iff (granted hd ∧ ∀ w ∈ rest, granted w → waiterOk hd w)
      (by simp [recordInv, h])

def tableInv (t : LockTable) : Prop := ∀ r ∈ t, recordInv r

/-! ## The bounded transaction thread pool (transaction.c:510-568)

`activeThreads[MAX_ACTIVE_TRANSACTIONS_COUNT]` with
`MAX_ACTIVE_TRANSACTIONS_COUNT = 10` (transaction.c:22) and the counter
`activeTransactionsCount`.  A slot holding `(pthread_t)NULL` is free
(`Option.none`); thread identities are `Nat`.  The steps are whole calls of
`AK_create_new_transaction_thread` and `AK_remove_transaction_thread`:
creations are serialised because only `AK_transaction_manager` (called from
the submitting thread) creates threads, and treating removals as atomic is
the coarsest faithful rendering of the unsynchronised slot scan. -/

def MAX_ACTIVE_TRANSACTIONS_COUNT : Nat := 10

/-- The scan of `AK_create_new_transaction_thread`: set the first free slot
to the new thread, or fail (`NOT_OK`) when every slot is taken. -/
def setFirstFreeSlot : List (Option Nat) → Nat → Option (List (Option Nat))
  | [], _ => none
  | none :: rest, tid => some (some tid :: rest)
  | some x :: rest, tid =>
    (setFirstFreeSlot rest tid).map (fun l => some x :: l)

/-- The scan of `AK_remove_transaction_thread`: clear the first slot
holding the given thread, or fail when it is absent. -/
def clearFirstSlot : List (Option Nat) → Nat → Option (List (Option Nat))
  | [], _ => none
  | s :: rest, tid =>
    if s = some tid then some (none :: rest)
    else (clearFirstSlot rest tid).map (fun l => s :: l)

/-- The executor's global thread bookkeeping: `activeThreads` and
`activeTransactionsCount`. -/
structure ThreadPoolState where
  activeThreads : List (Option Nat)
  activeTransactionsCount : Int
deriving DecidableEq, Repr

inductive Status where
  | OK
  | NOT_OK
deriving DecidableEq, Repr

/-- `AK_create_new_transaction_thread` (transaction.c:529-542): find a free
slot, spawn the worker into it and increment the active count; with no free
slot, return `NOT_OK` without spawning. -/
def AK_create_new_transaction_thread (s : ThreadPoolState) (tid : Nat) :
    ThreadPoolState × Status :=
  match setFirstFreeSlot s.activeThreads tid with
  | some l =>
    ({ activeThreads := l
       activeTransactionsCount := s.activeTransactionsCount + 1 }, Status.OK)
  | none => (s, Status.NOT_OK)

/-- `AK_remove_transaction_thread` (transaction.c:510-520): clear the
finished worker's slot and decrement the active count; `NOT_OK` without a
decrement when the thread is not found. -/
def AK_remove_transaction_thread (s : ThreadPoolState) (tid : Nat) :
    ThreadPoolState × Status :=
  match clearFirstSlot s.activeThreads tid with
  | some l =>
    ({ activeThreads := l
       activeTransactionsCount := s.activeTransactionsCount - 1 }, Status.OK)
  | none => (s, Status.NOT_OK)

/-- Thread-pool steps: a creation (from `AK_transaction_manager`, both of
whose branches call `AK_create_new_transaction_thread`) or a removal (from
`AK_on_transaction_end`).  Arbitrary interleavings of these cover every
behaviour of the manager. -/
inductive ThreadOp where
  | create (tid : Nat)
  | remove (tid : Nat)
deriving DecidableEq, Repr

def applyThreadOp (s : ThreadPoolState) : ThreadOp → ThreadPoolState
  | ThreadOp.create tid => (AK_create_new_transaction_thread s tid).1
  | ThreadOp.remove tid => (AK_remove_transaction_thread s tid).1

/-- The process-start state: all ten slots hold `(pthread_t)NULL` and the
count is zero. -/
def initThreadPool : ThreadPoolState :=
  { activeThreads := List.replicate MAX_ACTIVE_TRANSACTIONS_COUNT none
    activeTransactionsCount := 0 }

def runThreadOps (ops : List ThreadOp) : ThreadPoolState :=
  ops.foldl applyThreadOp initThreadPool

/-- Number of occupied slots ("live entries") of the slot array. -/
def occupiedSlots (l : List (Option Nat)) : Nat :=
  (l.filter (fun s => s.isSome)).length

/-! ## The transaction executor (transaction.c:406-479)

`AK_get_table_addresses` and the row-level `AK_command` are external
collaborators (spec §6); the block lists they provide enter the model as
the function argument `addrsOf`. -/

inductive CommandKind where
  | UPDATE
  | DELETE
  | INSERT
  | SELECT
deriving DecidableEq, Repr

/-- `struct command` as far as the executor core reads it: the table name
and the command kind (the row parameters are opaque to the core). -/
structure command where
  tblName : String
  id_command : CommandKind
deriving DecidableEq, Repr

inductive TxnResult where
  | COMMIT
  | ABORT
deriving DecidableEq, Repr

/-- `AK_get_memory_blocks` (transaction.c:406-426): ask the storage
collaborator for the table's block addresses and fail (`NOT_OK`) when there
are none (`addresses->address_from[0] == 0`).  Modelled from the spec for
the collaborator side: `addresses(table_name)` is the ordered block list,
empty for an unknown table. -/
def AK_get_memory_blocks (addrsOf : String → List Int) (tblName : String) :
    Option (List Int) :=
  if addrsOf tblName = [] then none else some (addrsOf tblName)

/-- `AK_acquire_lock` (transaction.c:327-356): enqueue the waiter (the
state effect is `AK_create_lock_state`), wait until granted, and return.
The function has a single `return OK;` — it never reports failure.  (An
allocation failure inside would crash in `memset`, not return, so every
terminating call takes this path.) -/
def AK_acquire_lock (t : LockTable) (memoryAddress : Int) (type : LockType)
    (transactionId : Nat) : LockTable × Status :=
  (AK_create_lock_state t memoryAddress type transactionId, Status.OK)

/-- `AK_release_locks` (transaction.c:364-397): for each held address call
`AK_delete_lock_entry_list`, then broadcast.  The loop runs over every
filled node of the address list (the trailing node with a null
`nextElement` is the list terminator). -/
def AK_release_locks (t : LockTable) (addrs : List Int) (transactionId : Nat) :
    LockTable :=
  addrs.foldl (fun s a => AK_delete_lock_entry_list_state s a transactionId) t

/-- The mode demanded by a command kind, from the `switch` at
transaction.c:450-465: insert/update/delete → exclusive, select →
shared. -/
def modeFor : CommandKind → LockType
  | CommandKind.UPDATE => LockType.EXCLUSIVE_LOCK
  | CommandKind.DELETE => LockType.EXCLUSIVE_LOCK
  | CommandKind.INSERT => LockType.EXCLUSIVE_LOCK
  | CommandKind.SELECT => LockType.SHARED_LOCK

/-- The per-command inner loop of `AK_execute_commands`
(transaction.c:449-473): acquire each block's lock; after each acquire,
`if (status == NOT_OK)` would abort.  Returns the table together with the
final `status`. -/
def acquireBlocks (transactionId : Nat) (type : LockType) :
    LockTable → List Int → LockTable × Status
  | t, [] => (t, Status.OK)
  | t, a :: rest =>
    let r := AK_acquire_lock t a type transactionId
    if r.2 = Status.NOT_OK then (r.1, Status.NOT_OK)
    else acquireBlocks transactionId type r.1 rest

/-- The command loop of `AK_execute_commands` (transaction.c:441-478).
`addresses` is the single `AK_memoryAddresses` variable that each
`AK_get_memory_blocks` call overwrites, so it always holds the block list
of the most recent successful lookup; the final `AK_release_locks` and the
acquire-failure abort both release only that list.  The lookup-failure
branch (transaction.c:443-446) returns `ABORT` without any release. -/
def AK_execute_commands_go (addrsOf : String → List Int) (transactionId : Nat) :
    LockTable → List Int → List command → LockTable × TxnResult
  | t, addresses, [] => (AK_release_locks t addresses transactionId, TxnResult.COMMIT)
  | t, _, cmd :: rest =>
    match AK_get_memory_blocks addrsOf cmd.tblName with
    | none => (t, TxnResult.ABORT)
    | some blocks =>
      let r := acquireBlocks transactionId (modeFor cmd.id_command) t blocks
      if r.2 = Status.NOT_OK then
        (AK_release_locks r.1 blocks transactionId, TxnResult.ABORT)
      else
        AK_execute_commands_go addrsOf transactionId r.1 blocks rest

/-- `AK_execute_commands` (transaction.c:437-479), started on a lock table
state with an initially empty `addresses` list. -/
def AK_execute_commands (addrsOf : String → List Int) (transactionId : Nat)
    (commandArray : List command) (t : LockTable) : LockTable × TxnResult :=
  AK_execute_commands_go addrsOf transactionId t [] commandArray

/-! ## The projection equivalence rewriter (opti/rel_eq_projection.c)

Strings stay `String`; the attribute-list separator is `;`
(`ATTR_DELIMITER`) and the condition attribute escape is a backtick
(`ATTR_ESCAPE`), per spec §6 (the macros live in the absent
`rel_eq_projection.h`).  The generic `list_node` stream becomes a Lean
list of tagged tokens; `Ak_End_L2` is `List.getLast?`, `Ak_Previous_L2`
is the predecessor index, and the `Ak_Insert*_L2` splices are list
insertions at the corresponding positions.  A `size` field is not carried:
every token's `size` in the C is the NUL-terminated length of `data`, and
the `size`/`memset` arithmetic only maintains that padding. -/

/-- `MAX_TOKENS`: cap of the token arrays.  Modelled from the spec: the
constant is implementation-defined in a header outside `src/`, at least
64 (§6); its exact value only matters for attribute lists with at least
`MAX_TOKENS - 1` entries, which no claim exercises. -/
def MAX_TOKENS : Nat := 255

/-- `strtok_r(s, ";")` splitting: cut at every separator. -/
def splitOnChar (sep : Char) : List Char → List Char → List (List Char)
  | [], cur => [cur.reverse]
  | c :: rest, cur =>
    if c = sep then cur.reverse :: splitOnChar sep rest []
    else splitOnChar sep rest (c :: cur)

/-- Tokenising an attribute list exactly as every function of
rel_eq_projection.c does: `strtok_r` on `;` (which skips empty tokens) into
an array of at most `MAX_TOKENS - 1` entries. -/
def tokensOf (s : String) : List String :=
  ((((splitOnChar ';' s.data []).filter (fun t => t ≠ [])).map
      (fun cs => String.mk cs)).take (MAX_TOKENS - 1))

/-- `strcat`-joining with `;` between entries, as the builders in
rel_eq_projection.c do (`if (strlen(ret) > 0) strcat(ret, ";")`). -/
def joinSemis : List String → String
  | [] => ""
  | [a] => a
  | a :: b :: rest => a ++ ";" ++ joinSemis (b :: rest)

/-- `data[0]` of a token payload (a NUL for the empty string). -/
def dataHead (s : String) : Char :=
  match s.data with
  | [] => Char.ofNat 0
  | c :: _ => c

inductive ExitCode where
  | EXIT_SUCCESS
  | EXIT_FAILURE
deriving DecidableEq, Repr

/-- `AK_rel_eq_is_subset` (rel_eq_projection.c:59-125).  Tokenise both
attribute lists; fail when the `set` list is shorter than the `subset`
list; otherwise count, over all pairs, how many `set` tokens equal each
`subset` token (`token_id` in the double loop at lines 104-110) and succeed
exactly when that count equals the `subset` length.  The `qsort` of both
arrays (lines 99-100) permutes them and leaves both the lengths and the
pair count unchanged, so it is not represented. -/
def AK_rel_eq_is_subset (list_elem_set list_elem_subset : String) : ExitCode :=
  let tokens_set := tokensOf list_elem_set
  let tokens_subset := tokensOf list_elem_subset
  if tokens_set.length < tokens_subset.length then ExitCode.EXIT_FAILURE
  else
    let token_id := tokens_subset.foldl
      (fun acc b => tokens_set.foldl
        (fun a2 a => if a = b then a2 + 1 else a2) acc) 0
    if token_id ≠ tokens_subset.length then ExitCode.EXIT_FAILURE
    else ExitCode.EXIT_SUCCESS

/-- The attribute names wrapped in backtick escapes inside a condition, in
order: the scanner of `AK_rel_eq_can_commute` (lines 163-190) copies, for
each escape found, the characters up to the next escape (`strcspn`), so the
extracted names are the odd-position segments of the split on the
escape. -/
def oddSegments : List (List Char) → List String
  | [] => []
  | [_] => []
  | _ :: b :: rest => String.mk b :: oddSegments rest

def extractEscaped (s : String) : List String :=
  oddSegments (splitOnChar '`' s.data [])

/-- `AK_rel_eq_can_commute` (rel_eq_projection.c:142-196): succeed iff
every escape-delimited attribute of the condition occurs among the
projection's tokens (the C returns `EXIT_FAILURE` from inside the scan as
soon as one name matches no token). -/
def AK_rel_eq_can_commute (list_elem_attribs list_elem_conds : String) :
    ExitCode :=
  let tokens := tokensOf list_elem_attribs
  if (extractEscaped list_elem_conds).all (fun a => tokens.contains a) then
    ExitCode.EXIT_SUCCESS
  else ExitCode.EXIT_FAILURE

/-- The character machine of `AK_rel_eq_collect_cond_attributes`
(rel_eq_projection.c:330-367).  On an escape character the C consumes the
escape and the character after it in the same iteration: entering an
escape appends a `;` separator (when the output is nonempty) and copies
that character; leaving an escape discards it.  Other characters are
copied exactly when inside an escape. -/
def collectChars : List Char → Bool → List Char → List Char
  | [], _, acc => acc
  | '`' :: rest, inside, acc =>
    if inside then
      match rest with
      | [] => acc
      | _ :: rest2 => collectChars rest2 false acc
    else
      match rest with
      | [] => acc
      | c :: rest2 =>
        collectChars rest2 true
          (acc ++ (if acc = [] then [] else [';']) ++ [c])
  | c :: rest, inside, acc =>
    collectChars rest inside (if inside then acc ++ [c] else acc)

/-- `AK_rel_eq_collect_cond_attributes`: the `;`-joined list of condition
attribute names. -/
def AK_rel_eq_collect_cond_attributes (cond : String) : String :=
  String.mk (collectChars cond.data false [])

/-- First-wins deduplication of `AK_rel_eq_remove_duplicates`
(rel_eq_projection.c:375-413): keep a token iff it differs from every
earlier token. -/
def dedupFirstAux : List String → List String → List String
  | _, [] => []
  | seen, t :: rest =>
    if seen.contains t then dedupFirstAux seen rest
    else t :: dedupFirstAux (t :: seen) rest

/-- `AK_rel_eq_remove_duplicates`: tokenise, drop duplicates (first
occurrence wins), rejoin with `;` (the C puts the separator in front of
every kept token other than the very first token, and the very first token
is never a duplicate, so this is the plain join). -/
def AK_rel_eq_remove_duplicates (attribs : String) : String :=
  joinSemis (dedupFirstAux [] (tokensOf attribs))

/-- `AK_rel_eq_projection_attributes` (rel_eq_projection.c:268-322):
`NULL` when the table has no attributes (unknown table); otherwise, for
each attribute token in order, append every equal entry of the table's
schema.  The schema lookup `AK_rel_eq_get_attributes` delegates to the
external header store; it enters as the `schema` function (spec §6:
`schema(table_name)` is the ordered attribute list, empty for an unknown
table). -/
def AK_rel_eq_projection_attributes (schema : String → List String)
    (attribs tblName : String) : Option String :=
  let list_attr := schema tblName
  if list_attr = [] then none
  else
    some (joinSemis ((tokensOf attribs).foldl
      (fun acc tok => acc ++ list_attr.filter (fun a => a = tok)) []))

/-- `list_node` `type` tags relevant to the rewriter. -/
inductive TokType where
  | TYPE_OPERATOR
  | TYPE_OPERAND
  | TYPE_ATTRIBS
  | TYPE_CONDITION
deriving DecidableEq, Repr

/-- One token of the postfix algebra stream (`list_node`): the tag and the
textual payload. -/
structure list_node where
  type : TokType
  data : String
deriving DecidableEq, Repr

/-- Operator symbols (spec §6; the `RO_*` macros live in a header outside
`src/`): `p`=π `s`=σ `u`=∪ `n`=∩ `e`=except `j`=natural join
`t`=theta join `r`=rename. -/
def RO_PROJECTION : Char := 'p'

def RO_SELECTION : Char := 's'

def RO_UNION : Char := 'u'

def RO_INTERSECT : Char := 'n'

def RO_NAT_JOIN : Char := 'j'

def RO_THETA_JOIN : Char := 't'

def RO_EXCEPT : Char := 'e'

def RO_RENAME : Char := 'r'

/-- The repeated test `prev->data[0] == RO_PROJECTION && prev->type ==
TYPE_OPERATOR`. -/
def isProjOpTok (t : list_node) : Bool :=
  t.type == TokType.TYPE_OPERATOR && dataHead t.data == RO_PROJECTION

def opndOrAttrs (t : list_node) : Bool :=
  t.type == TokType.TYPE_OPERAND || t.type == TokType.TYPE_ATTRIBS

/-- Whether `Ak_Previous_L2` of the element at `idx` is a projection
operator.  At index 0 the predecessor is the list root sentinel (the
generic list utility is outside `src/`), which is no token at all. -/
def prevIsProj (temp : List list_node) (idx : Nat) : Bool :=
  match idx with
  | 0 => false
  | i + 1 =>
    match temp[i]? with
    | some p => isProjOpTok p
    | none => false

/-- Splice a list of tokens in front of position `i` (the effect of
consecutive `Ak_InsertBefore_L2`/`Ak_InsertAfter_L2` calls). -/
def insertListAt (l : List list_node) (i : Nat) (xs : List list_node) :
    List list_node :=
  l.take i ++ xs ++ l.drop i

/-- The forward scan `while (tmp->type != TYPE_OPERAND) tmp = tmp->next;`
starting at position `i`: the first operand position at or after `i`. -/
def findOperandFrom (temp : List list_node) (i : Nat) : Option Nat :=
  match (temp.drop i).findIdx? (fun t => t.type == TokType.TYPE_OPERAND) with
  | some k => some (i + k)
  | none => none

/-- The backward walk of the `RO_SELECTION` case
(rel_eq_projection.c:468-499), over the element at index `idx` of `temp`.
Walking past the front reaches the root sentinel, which is neither operand
nor attribute, so the source then appends at the tail; at index 0 every
path appends (no projection can precede the first element). -/
def selWalk (temp : List list_node) (op arg : list_node) : Nat → List list_node
  | 0 => temp ++ [op, arg]
  | idx + 1 =>
    match temp[idx + 1]? with
    | none => temp ++ [op, arg]
    | some t =>
      if opndOrAttrs t then
        if t.type == TokType.TYPE_ATTRIBS
            && AK_rel_eq_can_commute t.data arg.data == ExitCode.EXIT_FAILURE
            && prevIsProj temp (idx + 1) then
          temp ++ [op, arg]
        else if prevIsProj temp (idx + 1) then
          insertListAt temp idx [op, arg]
        else
          selWalk temp op arg idx
      else
        temp ++ [op, arg]

/-- The backward walk of the `RO_UNION`/`RO_INTERSECT` case
(rel_eq_projection.c:512-535): find a projection with more than one
operand/attribute element on top of it (`step > 1`), and duplicate the
projection operator and its attribute set after the next operand.  Returns
`temp` before the operator itself is appended.  At index 0 the walk ends
without changes (see `selWalk` on the root sentinel). -/
def unionWalk (temp : List list_node) : Nat → Int → List list_node
  | 0, _ => temp
  | idx + 1, step =>
    match temp[idx + 1]? with
    | none => temp
    | some t =>
      if opndOrAttrs t then
        let stp := step + 1
        if prevIsProj temp (idx + 1) then
          if stp > 1 then
            match findOperandFrom temp (idx + 1) with
            | some j =>
              match temp[idx]? with
              | some prev => insertListAt temp (j + 1) [prev, t]
              | none => temp
            | none => temp
          else temp
        else unionWalk temp idx stp
      else temp

/-- The rewrite block of the `RO_THETA_JOIN` case
(rel_eq_projection.c:557-609), fired at the projection attribute element
`temp[idx]` with the projection operator `prev` before it and the join
condition `cond`.  `temp[idx+1]` and `temp[idx+2]` are the two operand
elements the C dereferences (`temp_elem_next`, `temp_elem_next->next`).
`has_attributes = EXIT_SUCCESS` (condition attributes all retained by the
projection) replaces the projection's attributes in place with their
restriction to the first operand's schema; otherwise a fresh projection
with the restriction extended by the condition attributes is pushed after
the attribute element.  Both branches then walk to the first operand and
push a projection for the second operand.  When either schema restriction
is `NULL` the block is skipped (`if (data1 != NULL && data2 != NULL)`). -/
def thetaRewrite (schema : String → List String) (temp : List list_node)
    (idx : Nat) (prev cond : list_node) : List list_node :=
  match temp[idx]?, temp[idx + 1]?, temp[idx + 2]? with
  | some te, some ten, some ten2 =>
    let has_attributes := AK_rel_eq_can_commute te.data cond.data
    match AK_rel_eq_projection_attributes schema te.data ten.data,
        AK_rel_eq_projection_attributes schema te.data ten2.data with
    | some data1, some data2 =>
      let temp1 :=
        if has_attributes = ExitCode.EXIT_SUCCESS then
          temp.set idx { te with data := data1 }
        else
          -- data1 is extended by the condition attributes restricted to the
          -- first operand's schema; that restriction is `some` because
          -- data1 already is (the schema is nonempty)
          let extra1 := (AK_rel_eq_projection_attributes schema
            (AK_rel_eq_collect_cond_attributes cond.data) ten.data).getD ""
          let data1' := AK_rel_eq_remove_duplicates (data1 ++ ";" ++ extra1)
          insertListAt temp (idx + 1)
            [⟨prev.type, prev.data⟩, ⟨te.type, data1'⟩]
      match findOperandFrom temp1 idx with
      | some j =>
        let data2' :=
          if has_attributes = ExitCode.EXIT_SUCCESS then data2
          else
            match temp1[j + 1]? with
            | some nxt =>
              AK_rel_eq_remove_duplicates (data2 ++ ";" ++
                (AK_rel_eq_projection_attributes schema
                  (AK_rel_eq_collect_cond_attributes cond.data) nxt.data).getD "")
            | none => data2
        insertListAt temp1 (j + 1) [⟨prev.type, prev.data⟩, ⟨te.type, data2'⟩]
      | none => temp1
    | _, _ => temp
  | _, _, _ => temp

/-- The backward walk of the `RO_THETA_JOIN` case
(rel_eq_projection.c:551-616): same scaffold as `unionWalk`, firing
`thetaRewrite` when a projection with `step > 1` is found. -/
def thetaWalk (schema : String → List String) (temp : List list_node)
    (cond : list_node) : Nat → Int → List list_node
  | 0, _ => temp
  | idx + 1, step =>
    match temp[idx + 1]? with
    | none => temp
    | some t =>
      if opndOrAttrs t then
        let stp := step + 1
        if prevIsProj temp (idx + 1) then
          if stp > 1 then
            match temp[idx]? with
            | some prev => thetaRewrite schema temp (idx + 1) prev cond
            | none => temp
          else temp
        else thetaWalk schema temp cond idx stp
      else temp

/-- The main loop of `AK_rel_eq_projection` (rel_eq_projection.c:432-661):
one forward pass over the input, accumulating the output list `temp`.
Operator cases that consume their successor (`p`, `s`, `j`, `t`) advance
the input by one extra element; an operator with no successor ends the
pass with the emitted prefix (malformed-ir, spec §7 — the C would
dereference a null `list_elem_next` there).  Stand-alone attribute and
condition elements are skipped (rel_eq_projection.c:641-648); operands are
appended. -/
def relEqGo (schema : String → List String) :
    List list_node → List list_node → List list_node
  | temp, [] => temp
  | temp, e :: rest =>
    match e.type with
    | TokType.TYPE_OPERATOR =>
      let c := dataHead e.data
      if c = RO_PROJECTION then
        match rest with
        | [] => temp
        | nx :: rest2 =>
          let temp' :=
            match temp.getLast? with
            | some te =>
              if te.type = TokType.TYPE_ATTRIBS then
                if AK_rel_eq_is_subset nx.data te.data = ExitCode.EXIT_FAILURE then
                  temp ++ [e, nx]
                else temp
              else temp ++ [e, nx]
            | none => temp ++ [e, nx]
          relEqGo schema temp' rest2
      else if c = RO_SELECTION then
        match rest with
        | [] => temp
        | nx :: rest2 =>
          let temp' :=
            if temp.isEmpty then temp ++ [e, nx]
            else selWalk temp e nx (temp.length - 1)
          relEqGo schema temp' rest2
      else if c = RO_UNION ∨ c = RO_INTERSECT then
        let temp' :=
          (if temp.isEmpty then temp
           else unionWalk temp (temp.length - 1) (-1)) ++ [e]
        relEqGo schema temp' rest
      else if c = RO_NAT_JOIN then
        match rest with
        | [] => temp
        | nx :: rest2 => relEqGo schema (temp ++ [e, nx]) rest2
      else if c = RO_THETA_JOIN then
        match rest with
        | [] => temp
        | nx :: rest2 =>
          let temp' :=
            (if temp.isEmpty then temp
             else thetaWalk schema temp nx (temp.length - 1) (-1)) ++ [e, nx]
          relEqGo schema temp' rest2
      else if c = RO_EXCEPT ∨ c = RO_RENAME then
        relEqGo schema (temp ++ [e]) rest
      else
        relEqGo schema temp rest
    | TokType.TYPE_ATTRIBS => relEqGo schema temp rest
    | TokType.TYPE_CONDITION => relEqGo schema temp rest
    | TokType.TYPE_OPERAND => relEqGo schema (temp ++ [e]) rest

/-- `AK_rel_eq_projection` (rel_eq_projection.c:421-679): run the pass on
an input stream with an initially empty output. -/
def AK_rel_eq_projection (schema : String → List String)
    (list_rel_eq : List list_node) : List list_node :=
  relEqGo schema [] list_rel_eq

/-! ## Concrete inputs used to settle the claims -/

/-- Scenario L3 prefix (spec §8): T1 acquires shared on block 300, then T2
acquires exclusive, then T3 acquires shared. -/
def l3ops : List LockOp :=
  [LockOp.acquire 300 LockType.SHARED_LOCK 1,
   LockOp.acquire 300 LockType.EXCLUSIVE_LOCK 2,
   LockOp.acquire 300 LockType.SHARED_LOCK 3]

/-- Scenario L3 continued: T1 releases block 300 (the release broadcasts
the table-wide condition variable) and the still-waiting T2, now the queue
head, re-evaluates the oracle. -/
def l3opsRelease : List LockOp :=
  l3ops ++ [LockOp.release 300 1, LockOp.recheck 300 0]

/-- One shared acquisition on block 100 followed by its release. -/
def c4ops : List LockOp :=
  [LockOp.acquire 100 LockType.SHARED_LOCK 1, LockOp.release 100 1]

/-- The grant condition exactly as claim C3 words it: `p` is the head of
the queue, or the head is granted-shared (`isWaiting` already
`PASS_LOCK_QUEUE`) and `p` wants shared, or the head is granted-exclusive
and of `p`'s transaction. -/
def C3_claim_grants (lockHolder : AK_transaction_elem) (type : LockType)
    (transactionId : Nat) (lockIdx : Nat) : Bool :=
  lockIdx == 0 ||
  (match lockHolder.DLLLocksHead.head? with
   | none => false
   | some hd =>
     (hd.isWaiting == LockStatus.PASS_LOCK_QUEUE
        && hd.lock_type == LockType.SHARED_LOCK
        && type == LockType.SHARED_LOCK) ||
     (hd.isWaiting == LockStatus.PASS_LOCK_QUEUE
        && hd.lock_type == LockType.EXCLUSIVE_LOCK
        && hd.TransactionId == transactionId))

/-- A storage collaborator under which table `A` owns block 7 and every
other table is unknown (empty address list). -/
def addrsOfA : String → List Int :=
  fun tbl => if tbl = "A" then [7] else []

/-- A two-command transaction: insert into the known table `A`, then
select from the unknown table `B`. -/
def cmdsAB : List command :=
  [⟨"A", CommandKind.INSERT⟩, ⟨"B", CommandKind.SELECT⟩]

/-- A schema collaborator with `R(x)` and `S(y)` and no other tables. -/
def schemaRS : String → List String :=
  fun t => if t = "R" then ["x"] else if t = "S" then ["y"] else []

/-- Input for claim C9: `π[x] (R ⋈θ[x=y] S)` as a token stream —
projection, its attribute list, the two operands, the theta join and its
condition. -/
def thetaInput : List list_node :=
  [⟨TokType.TYPE_OPERATOR, "p"⟩, ⟨TokType.TYPE_ATTRIBS, "x"⟩,
   ⟨TokType.TYPE_OPERAND, "R"⟩, ⟨TokType.TYPE_OPERAND, "S"⟩,
   ⟨TokType.TYPE_OPERATOR, "t"⟩, ⟨TokType.TYPE_CONDITION, "`x` `y` ="⟩]

/-- Input for claim C7: `π[a;b] π[a] R`; the inner projection's attribute
set `{a}` is a subset of the outer's `{a,b}`. -/
def cascadeInput : List list_node :=
  [⟨TokType.TYPE_OPERATOR, "p"⟩, ⟨TokType.TYPE_ATTRIBS, "a;b"⟩,
   ⟨TokType.TYPE_OPERATOR, "p"⟩, ⟨TokType.TYPE_ATTRIBS, "a"⟩,
   ⟨TokType.TYPE_OPERAND, "R"⟩]

def pTok : list_node := ⟨TokType.TYPE_OPERATOR, "p"⟩

def aTok (s : String) : list_node := ⟨TokType.TYPE_ATTRIBS, s⟩

def oTok (s : String) : list_node := ⟨TokType.TYPE_OPERAND, s⟩

/-- The alternating `π`/attribute-list encoding of a projection cascade. -/
def cascadePairs : List String → List list_node
  | [] => []
  | a :: as => pTok :: aTok a :: cascadePairs as

/-- A projection-cascade stream: `π[a₁] π[a₂] … π[aₙ] tbl`. -/
def cascadeStream (as : List String) (tbl : String) : List list_node :=
  cascadePairs as ++ [oTok tbl]

/-- The attribute lists the rewriter keeps on a cascade stream: a
projection is elided exactly when the previously kept attribute list
passes `AK_rel_eq_is_subset` as a subset of the new one. -/
def keptFold : List String → List String → List String
  | ks, [] => ks
  | ks, a :: as =>
    match ks.getLast? with
    | none => keptFold (ks ++ [a]) as
    | some b =>
      if AK_rel_eq_is_subset a b = ExitCode.EXIT_SUCCESS then keptFold ks as
      else keptFold (ks ++ [a]) as

/-- Separation of two consecutive kept attribute lists: the earlier one
does not pass the subset test against the later one. -/
def cascadeSep (b a : String) : Prop :=
  AK_rel_eq_is_subset a b ≠ ExitCode.EXIT_SUCCESS

/-! # Lemmas about the lock compatibility oracle -/

/-- What the oracle's verdict is, on a nonempty queue: pass exactly for the
head position, for a shared request under a shared-mode head, or for a
request of the head's own transaction under an exclusive-mode head.  The
head's `isWaiting` flag plays no role. -/
theorem isLock_waiting_fst_pass_iff
    (lockHolder : AK_transaction_elem) (type : LockType) (transactionId : Nat)
    (lockIdx : Nat) (hd : AK_transaction_lock_elem)
    (rest : List AK_transaction_lock_elem)
    (hq : lockHolder.DLLLocksHead = hd :: rest) :
    (AK_isLock_waiting lockHolder type transactionId lockIdx).1 =
        LockStatus.PASS_LOCK_QUEUE ↔
      (lockIdx = 0 ∨
        (hd.lock_type = LockType.SHARED_LOCK ∧ type = LockType.SHARED_LOCK) ∨
        (hd.lock_type = LockType.EXCLUSIVE_LOCK ∧
          hd.TransactionId = transactionId)) := by
  rcases hd with ⟨wtid, wty, wflag⟩
  cases wty <;> cases type <;>
    by_cases h0 : lockIdx = 0 <;>
    by_cases htid : wtid = transactionId <;>
    simp [AK_isLock_waiting, hq, h0, htid]

/-- The record mode returned by the oracle: the request's mode when the
waiter is the head, the record's previous mode otherwise. -/
theorem isLock_waiting_snd_eq
    (lockHolder : AK_transaction_elem) (type : LockType) (transactionId : Nat)
    (lockIdx : Nat) (hd : AK_transaction_lock_elem)
    (rest : List AK_transaction_lock_elem)
    (hq : lockHolder.DLLLocksHead = hd :: rest) :
    (AK_isLock_waiting lockHolder type transactionId lockIdx).2 =
      (if lockIdx = 0 then type else lockHolder.lock_type) := by
  rcases hd with ⟨wtid, wty, wflag⟩
  cases wty <;> cases type <;>
    by_cases h0 : lockIdx = 0 <;>
    by_cases htid : wtid = transactionId <;>
    simp [AK_isLock_waiting, hq, h0, htid]

/-- Members of a table after an in-place record replacement. -/
theorem replaceRecord_mem {t : LockTable} {a : Int}
    {e r : AK_transaction_elem} (h : r ∈ replaceRecord t a e) :
    r ∈ t ∨ r = e := by
  induction t with
  | nil => simp [replaceRecord] at h
  | cons x xs ih =>
    by_cases hx : x.address = a
    · rw [replaceRecord, if_pos hx] at h
      rcases List.mem_cons.mp h with h1 | h2
      · exact Or.inr h1
      · exact Or.inl (List.mem_cons_of_mem x h2)
    · rw [replaceRecord, if_neg hx] at h
      rcases List.mem_cons.mp h with h1 | h2
      · exact Or.inl (h1 ▸ List.mem_cons_self x xs)
      · rcases ih h2 with h3 | h3
        · exact Or.inl (List.mem_cons_of_mem x h3)
        · exact Or.inr h3

/-- `AK_add_lock` preserves the record invariant: the appended waiter is
granted only under the oracle's head-compatibility clauses. -/
theorem AK_add_lock_recordInv (r : AK_transaction_elem) (ty : LockType)
    (tid : Nat) (hr : recordInv r) : recordInv (AK_add_lock r ty tid) := by
  rcases hq : r.DLLLocksHead with _ | ⟨hd, rest⟩
  · simp [AK_add_lock, hq, AK_isLock_waiting, recordInv, granted]
  · have hinv := hr
    rw [recordInv, hq] at hinv
    obtain ⟨ghd, hall⟩ := hinv
    have hqueue : (AK_add_lock r ty tid).DLLLocksHead =
        hd :: (rest ++ [⟨tid, ty,
          (AK_isLock_waiting
            { r with DLLLocksHead :=
                (hd :: rest) ++ [⟨tid, ty, LockStatus.WAIT_FOR_UNLOCK⟩] }
            ty tid (hd :: rest).length).1⟩]) := by
      simp [AK_add_lock, hq]
    rw [recordInv, hqueue]
    refine ⟨ghd, ?_⟩
    intro w hw gw
    rcases List.mem_append.mp hw with hmem | hmem
    · exact hall w hmem gw
    · have hwval := List.mem_singleton.mp hmem
      subst hwval
      have hpass := gw
      rw [granted] at hpass
      rw [isLock_waiting_fst_pass_iff _ _ _ _ hd
            (rest ++ [⟨tid, ty, LockStatus.WAIT_FOR_UNLOCK⟩]) (by simp)] at hpass
      rcases hpass with h0 | hcl | hcl
      · simp at h0
      · exact Or.inl ⟨hcl.1, hcl.2⟩
      · exact Or.inr ⟨hcl.1, hcl.2.symm⟩

/-- The record built by a re-check step preserves the record invariant. -/
theorem recheck_record_recordInv (elem : AK_transaction_elem) (idx : Nat)
    (w : AK_transaction_lock_elem) (hw : elem.DLLLocksHead[idx]? = some w)
    (hinv : recordInv elem) :
    recordInv { elem with
      lock_type := (AK_isLock_waiting elem w.lock_type w.TransactionId idx).2
      DLLLocksHead := elem.DLLLocksHead.set idx
        { w with isWaiting :=
            (AK_isLock_waiting elem w.lock_type w.TransactionId idx).1 } } := by
  rcases hq : elem.DLLLocksHead with _ | ⟨hd, rest⟩
  · rw [hq] at hw; simp at hw
  · have hinv' := hinv
    rw [recordInv, hq] at hinv'
    obtain ⟨ghd, hall⟩ := hinv'
    rcases idx with _ | k
    · have hw0 : w = hd := by
        rw [hq] at hw
        simpa using hw.symm
      subst hw0
      have hfst : ∀ (ty : LockType) (tid : Nat),
          (AK_isLock_waiting elem ty tid 0).1 = LockStatus.PASS_LOCK_QUEUE := by
        intro ty tid
        simp [AK_isLock_waiting, hq]
      rw [recordInv]
      simp only [hq, List.set_cons_zero]
      refine ⟨by simp [granted, hfst], ?_⟩
      intro w' hw' gw'
      have := hall w' hw' gw'
      simpa [waiterOk] using this
    · rw [hq] at hw
      simp only [List.getElem?_cons_succ] at hw
      rw [recordInv]
      simp only [hq, List.set_cons_succ]
      refine ⟨ghd, ?_⟩
      intro w' hw' gw'
      rcases List.mem_or_eq_of_mem_set hw' with hmem | hval
      · exact hall w' hmem gw'
      · subst hval
        have hpass := gw'
        rw [granted] at hpass
        rw [isLock_waiting_fst_pass_iff _ _ _ _ hd rest hq] at hpass
        rcases hpass with h0 | hcl | hcl
        · simp at h0
        · exact Or.inl ⟨hcl.1, hcl.2⟩
        · exact Or.inr ⟨hcl.1, hcl.2.symm⟩

/-- An acquire step preserves the table invariant. -/
theorem acquire_tableInv (t : LockTable) (a : Int) (ty : LockType) (tid : Nat)
    (ht : tableInv t) : tableInv (AK_create_lock_state t a ty tid) := by
  rcases hfind : AK_search_existing_link_for_hook t a with _ | elem <;>
    simp only [AK_create_lock_state, hfind]
  · intro r hr
    rcases List.mem_append.mp hr with h1 | h2
    · exact ht r h1
    · have hr2 := List.mem_singleton.mp h2
      subst hr2
      exact AK_add_lock_recordInv _ _ _ (by simp [recordInv])
  · intro r hr
    rcases replaceRecord_mem hr with h1 | h2
    · exact ht r h1
    · subst h2
      refine AK_add_lock_recordInv _ _ _ (ht elem ?_)
      rw [AK_search_existing_link_for_hook] at hfind
      exact List.mem_of_find?_eq_some hfind

/-- A re-check step preserves the table invariant. -/
theorem recheck_tableInv (t : LockTable) (a : Int) (idx : Nat)
    (ht : tableInv t) : tableInv (recheckLock t a idx) := by
  rcases hfind : AK_search_existing_link_for_hook t a with _ | elem
  · simp only [recheckLock, hfind]
    exact ht
  · rcases hw : elem.DLLLocksHead[idx]? with _ | w
    · simp only [recheckLock, hfind, hw]
      exact ht
    · by_cases hflag : w.isWaiting = LockStatus.WAIT_FOR_UNLOCK
      · simp only [recheckLock, hfind, hw, if_pos hflag]
        intro r hr
        rcases replaceRecord_mem hr with h1 | h2
        · exact ht r h1
        · subst h2
          refine recheck_record_recordInv elem idx w hw (ht elem ?_)
          rw [AK_search_existing_link_for_hook] at hfind
          exact List.mem_of_find?_eq_some hfind
      · simp only [recheckLock, hfind, hw, if_neg hflag]
        exact ht

/-- Any sequence of acquire and re-check steps preserves the table
invariant. -/
theorem foldl_no_release_tableInv (ops : List LockOp) :
    ∀ t, tableInv t → (∀ op ∈ ops, op.isRelease = false) →
      tableInv (ops.foldl applyLockOp t) := by
  induction ops with
  | nil => intro t ht _; exact ht
  | cons op rest ih =>
    intro t ht hall
    rw [List.foldl_cons]
    have hstep : tableInv (applyLockOp t op) := by
      cases op with
      | acquire a ty tid => exact acquire_tableInv t a ty tid ht
      | recheck a idx => exact recheck_tableInv t a idx ht
      | release a tid =>
        have := hall _ (List.mem_cons_self _ _)
        simp [LockOp.isRelease] at this
    exact ih _ hstep (fun o ho => hall o (List.mem_cons_of_mem _ ho))

/-- The record invariant yields mutual exclusion on the record. -/
theorem recordInv_mutexOk (r : AK_transaction_elem) (h : recordInv r) :
    MutexOk r := by
  intro w1 h1 w2 h2 g1 g2 hex
  rcases hq : r.DLLLocksHead with _ | ⟨hd, rest⟩
  · rw [hq] at h1; simp at h1
  · rw [recordInv, hq] at h
    obtain ⟨ghd, hall⟩ := h
    rw [hq] at h1 h2
    rcases List.mem_cons.mp h1 with e1 | m1 <;>
      rcases List.mem_cons.mp h2 with e2 | m2
    · rw [e1, e2]
    · subst e1
      rcases hall w2 m2 g2 with ⟨hsh, _⟩ | ⟨_, htid⟩
      · rw [hex] at hsh; simp at hsh
      · exact htid.symm
    · subst e2
      rcases hall w1 m1 g1 with ⟨_, h1sh⟩ | ⟨_, htid⟩
      · rw [hex] at h1sh; simp at h1sh
      · exact htid
    · rcases hall w1 m1 g1 with ⟨_, h1sh⟩ | ⟨hhe, ht1⟩
      · rw [hex] at h1sh; simp at h1sh
      · rcases hall w2 m2 g2 with ⟨hsh, _⟩ | ⟨_, ht2⟩
        · rw [hhe] at hsh; simp at hsh
        · rw [ht1, ht2]

/-! # Claims C1-C4: the lock table -/

/-- C1, counterexample.  The claim — at most one transaction holds the
exclusive lock granted per resource, and never an exclusive grant together
with another transaction's shared grant, in every reachable state — fails:
from the empty table, T1 acquires shared on block 300, T2 enqueues
exclusive (waits), T3 enqueues shared and is granted immediately (the
oracle consults only the head's mode), T1 releases, and the broadcast lets
T2 — now the queue head — re-evaluate and pass.  The resulting reachable
state holds an exclusive grant of T2 and a shared grant of T3 on block 300
simultaneously. -/
theorem C1_counterexample :
    runLockOps l3opsRelease =
      [⟨300, LockType.EXCLUSIVE_LOCK,
        [⟨2, LockType.EXCLUSIVE_LOCK, LockStatus.PASS_LOCK_QUEUE⟩,
         ⟨3, LockType.SHARED_LOCK, LockStatus.PASS_LOCK_QUEUE⟩]⟩] ∧
    ¬ MutexOk ⟨300, LockType.EXCLUSIVE_LOCK,
        [⟨2, LockType.EXCLUSIVE_LOCK, LockStatus.PASS_LOCK_QUEUE⟩,
         ⟨3, LockType.SHARED_LOCK, LockStatus.PASS_LOCK_QUEUE⟩]⟩ := by
  decide

/-- C1, amended.  Mutual exclusion does hold in every state reachable by
acquire and wake-up re-check steps alone (no release): every resource
record then satisfies `MutexOk` — if any transaction holds the exclusive
lock granted, every granted waiter of that record belongs to the same
transaction, so an exclusive grant never coexists with another
transaction's grant.  A release step can break this (see
`C1_counterexample`): it may promote a waiting exclusive waiter to the
queue head, which the broadcast re-check then grants while a later shared
grant persists. -/
theorem C1_mutual_exclusion_without_release (ops : List LockOp)
    (hops : ∀ op ∈ ops, op.isRelease = false) :
    ∀ r ∈ runLockOps ops, MutexOk r := by
  intro r hr
  refine recordInv_mutexOk r (foldl_no_release_tableInv ops [] ?_ hops r hr)
  intro x hx
  simp at hx

theorem C1_witness :
    (∀ op ∈ l3ops, op.isRelease = false) ∧
      ∀ r ∈ runLockOps l3ops, MutexOk r :=
  ⟨by decide, C1_mutual_exclusion_without_release l3ops (by decide)⟩

/-- C2, counterexample.  The claim — FIFO modulo shared coalescing, with
scenario L3 expecting T3 (shared) to wait behind T2 (exclusive) — fails:
after T1 acquires shared on block 300, T2 enqueues exclusive and waits
(second conjunct: the state after two steps), and T3's shared enqueue is
then granted immediately (first conjunct: T3's waiter carries
`PASS_LOCK_QUEUE` the moment it is added, because `AK_isLock_waiting` only
compares against the queue head's stored mode).  So waiter T2 was enqueued
before waiter T3, T3 is granted, T2 was granted at no time up to that
point (its flag is `WAIT_FOR_UNLOCK` in every state of the trace), and the
two are not both shared. -/
theorem C2_counterexample :
    runLockOps l3ops =
      [⟨300, LockType.SHARED_LOCK,
        [⟨1, LockType.SHARED_LOCK, LockStatus.PASS_LOCK_QUEUE⟩,
         ⟨2, LockType.EXCLUSIVE_LOCK, LockStatus.WAIT_FOR_UNLOCK⟩,
         ⟨3, LockType.SHARED_LOCK, LockStatus.PASS_LOCK_QUEUE⟩]⟩] ∧
    runLockOps (l3ops.take 2) =
      [⟨300, LockType.SHARED_LOCK,
        [⟨1, LockType.SHARED_LOCK, LockStatus.PASS_LOCK_QUEUE⟩,
         ⟨2, LockType.EXCLUSIVE_LOCK, LockStatus.WAIT_FOR_UNLOCK⟩]⟩] := by
  decide

/-- C2, amended.  The discipline the code does enforce on a record whose
queue has head `hd`: a newly enqueued waiter that is not the head is
granted at enqueue time iff the head's recorded mode is shared and the
request is shared, or the head's recorded mode is exclusive and the head
belongs to the requesting transaction (first conjunct); and a wake-up
re-evaluation of a non-head waiter grants under exactly the same
condition (second conjunct).  Passing is thus decided only against the
queue head, regardless of any exclusive waiter queued in between — FIFO
order is not enforced beyond the head comparison. -/
theorem C2_grant_discipline (r : AK_transaction_elem) (ty : LockType)
    (tid : Nat) (hd : AK_transaction_lock_elem)
    (rest : List AK_transaction_lock_elem)
    (hq : r.DLLLocksHead = hd :: rest) :
    ((AK_add_lock r ty tid).DLLLocksHead.getLast?.map
        AK_transaction_lock_elem.isWaiting =
          some LockStatus.PASS_LOCK_QUEUE ↔
      (hd.lock_type = LockType.SHARED_LOCK ∧ ty = LockType.SHARED_LOCK) ∨
      (hd.lock_type = LockType.EXCLUSIVE_LOCK ∧ hd.TransactionId = tid)) ∧
    (∀ idx w, 0 < idx → r.DLLLocksHead[idx]? = some w →
      ((AK_isLock_waiting r w.lock_type w.TransactionId idx).1 =
          LockStatus.PASS_LOCK_QUEUE ↔
        (hd.lock_type = LockType.SHARED_LOCK ∧
          w.lock_type = LockType.SHARED_LOCK) ∨
        (hd.lock_type = LockType.EXCLUSIVE_LOCK ∧
          hd.TransactionId = w.TransactionId))) := by
  constructor
  · have hqueue : (AK_add_lock r ty tid).DLLLocksHead =
        (hd :: rest) ++ [⟨tid, ty,
          (AK_isLock_waiting
            { r with DLLLocksHead :=
                (hd :: rest) ++ [⟨tid, ty, LockStatus.WAIT_FOR_UNLOCK⟩] }
            ty tid (hd :: rest).length).1⟩] := by
      simp [AK_add_lock, hq]
    rw [hqueue, List.getLast?_concat]
    simp only [Option.map_some', Option.some.injEq]
    rw [isLock_waiting_fst_pass_iff _ _ _ _ hd
          (rest ++ [⟨tid, ty, LockStatus.WAIT_FOR_UNLOCK⟩]) (by simp)]
    simp
  · intro idx w hpos hw
    rw [isLock_waiting_fst_pass_iff r w.lock_type w.TransactionId idx hd rest hq]
    simp [Nat.pos_iff_ne_zero.mp hpos]

/-- Witness for `C2_grant_discipline`: with T1's shared lock granted as the
sole queue entry of block 300, T2's exclusive enqueue is not granted. -/
theorem C2_witness :
    (AK_add_lock
        ⟨300, LockType.SHARED_LOCK,
          [⟨1, LockType.SHARED_LOCK, LockStatus.PASS_LOCK_QUEUE⟩]⟩
        LockType.EXCLUSIVE_LOCK 2).DLLLocksHead.getLast?.map
      AK_transaction_lock_elem.isWaiting ≠ some LockStatus.PASS_LOCK_QUEUE := by
  have h := C2_grant_discipline
    ⟨300, LockType.SHARED_LOCK,
      [⟨1, LockType.SHARED_LOCK, LockStatus.PASS_LOCK_QUEUE⟩]⟩
    LockType.EXCLUSIVE_LOCK 2
    ⟨1, LockType.SHARED_LOCK, LockStatus.PASS_LOCK_QUEUE⟩ [] rfl
  intro hcontra
  rcases h.1.mp hcontra with ⟨_, h1⟩ | ⟨h2, _⟩
  · exact absurd h1 (by decide)
  · exact absurd h2 (by decide)

/-- C3, counterexample.  The claim says the oracle grants exactly when the
waiter is the head, or the head is *granted*-shared and the waiter wants
shared, or the head is *granted*-exclusive and of the waiter's
transaction.  The code never consults the head's granted flag: on a record
for block 300 whose head is a *waiting* shared waiter of T2 (reachable:
T1 exclusive granted, T2 shared waiting, then T1 releases), evaluating a
shared waiter of T3 at position 1 returns `PASS_LOCK_QUEUE`, while the
claim's condition (`C3_claim_grants`) does not hold. -/
theorem C3_counterexample :
    (AK_isLock_waiting
        ⟨300, LockType.SHARED_LOCK,
          [⟨2, LockType.SHARED_LOCK, LockStatus.WAIT_FOR_UNLOCK⟩,
           ⟨3, LockType.SHARED_LOCK, LockStatus.WAIT_FOR_UNLOCK⟩]⟩
        LockType.SHARED_LOCK 3 1).1 = LockStatus.PASS_LOCK_QUEUE ∧
    C3_claim_grants
        ⟨300, LockType.SHARED_LOCK,
          [⟨2, LockType.SHARED_LOCK, LockStatus.WAIT_FOR_UNLOCK⟩,
           ⟨3, LockType.SHARED_LOCK, LockStatus.WAIT_FOR_UNLOCK⟩]⟩
        LockType.SHARED_LOCK 3 1 = false := by
  decide

/-- C3, amended.  The oracle's exact characterisation on a nonempty queue:
it grants iff the waiter is the head (and then the record's current mode
becomes the waiter's mode — second conjunct), or the head's *recorded*
mode is shared and the waiter wants shared, or the head's recorded mode is
exclusive and the head belongs to the waiter's transaction; the head's
waiting flag is not consulted.  In all other cases it answers
`WAIT_FOR_UNLOCK`. -/
theorem C3_oracle_characterisation (r : AK_transaction_elem) (ty : LockType)
    (tid : Nat) (idx : Nat) (hd : AK_transaction_lock_elem)
    (rest : List AK_transaction_lock_elem)
    (hq : r.DLLLocksHead = hd :: rest) :
    ((AK_isLock_waiting r ty tid idx).1 = LockStatus.PASS_LOCK_QUEUE ↔
      (idx = 0 ∨
        (hd.lock_type = LockType.SHARED_LOCK ∧ ty = LockType.SHARED_LOCK) ∨
        (hd.lock_type = LockType.EXCLUSIVE_LOCK ∧
          hd.TransactionId = tid))) ∧
    (AK_isLock_waiting r ty tid idx).2 =
      (if idx = 0 then ty else r.lock_type) :=
  ⟨isLock_waiting_fst_pass_iff r ty tid idx hd rest hq,
   isLock_waiting_snd_eq r ty tid idx hd rest hq⟩

/-- Witness for `C3_oracle_characterisation`: a shared request of T2
behind T1's granted shared head passes. -/
theorem C3_witness :
    (AK_isLock_waiting
        ⟨7, LockType.SHARED_LOCK,
          [⟨1, LockType.SHARED_LOCK, LockStatus.PASS_LOCK_QUEUE⟩]⟩
        LockType.SHARED_LOCK 2 1).1 = LockStatus.PASS_LOCK_QUEUE :=
  (C3_oracle_characterisation
      ⟨7, LockType.SHARED_LOCK,
        [⟨1, LockType.SHARED_LOCK, LockStatus.PASS_LOCK_QUEUE⟩]⟩
      LockType.SHARED_LOCK 2 1
      ⟨1, LockType.SHARED_LOCK, LockStatus.PASS_LOCK_QUEUE⟩ [] rfl).1.mpr
    (Or.inr (Or.inl ⟨rfl, rfl⟩))

/-- C4, counterexample.  The claim — every record present in a bucket has
a non-empty waiter queue, and release of the last waiter removes the
record from its bucket — fails: after T1 acquires shared on block 100 and
releases it, the record for block 100 is still present in the table with
an empty waiter queue (`AK_release_locks` removes the waiter entries via
`AK_delete_lock_entry_list` but never calls
`AK_delete_hash_entry_list`). -/
theorem C4_counterexample :
    runLockOps c4ops = [⟨100, LockType.SHARED_LOCK, []⟩] ∧
    (⟨100, LockType.SHARED_LOCK, []⟩ : AK_transaction_elem) ∈ runLockOps c4ops ∧
    (⟨100, LockType.SHARED_LOCK, []⟩ : AK_transaction_elem).DLLLocksHead = [] := by
  decide

/-- Record addresses are untouched by replacing a record with one of the
same address. -/
theorem replaceRecord_map_address (t : LockTable) (a : Int)
    (e : AK_transaction_elem) (he : e.address = a) :
    (replaceRecord t a e).map AK_transaction_elem.address =
      t.map AK_transaction_elem.address := by
  induction t with
  | nil => rfl
  | cons x xs ih =>
    by_cases hx : x.address = a
    · simp [replaceRecord, hx, he]
    · simp [replaceRecord, hx, ih]

/-- C4, amended.  A release step removes the releasing transaction's
waiter entries but leaves the set of resource records — hence each
record's bucket membership — exactly as it was, so records survive with
empty queues (first conjunct).  Removal of a record from its bucket is
implemented only by `AK_delete_hash_entry_list`, which unlinks precisely
the first record of the given address (second conjunct) — but
`AK_release_locks` never invokes it. -/
theorem C4_release_keeps_record :
    (∀ (t : LockTable) (a : Int) (tid : Nat),
      (applyLockOp t (LockOp.release a tid)).map AK_transaction_elem.address =
        t.map AK_transaction_elem.address) ∧
    (∀ (t : LockTable) (a : Int) (r : AK_transaction_elem),
      AK_search_existing_link_for_hook t a = some r →
      ∃ pre post, t = pre ++ r :: post ∧ (∀ x ∈ pre, x.address ≠ a) ∧
        AK_delete_hash_entry_list t a = pre ++ post) := by
  constructor
  · intro t a tid
    rcases hfind : AK_search_existing_link_for_hook t a with _ | elem <;>
      simp only [applyLockOp, AK_delete_lock_entry_list_state, hfind]
    have haddr : elem.address = a := by
      rw [AK_search_existing_link_for_hook] at hfind
      have := List.find?_some hfind
      simpa using this
    exact replaceRecord_map_address t a _ haddr
  · intro t a r h
    induction t with
    | nil => simp [AK_search_existing_link_for_hook] at h
    | cons x xs ih =>
      by_cases hx : x.address = a
      · have hxr : x = r := by
          rw [AK_search_existing_link_for_hook,
              List.find?_cons_of_pos _ (by simpa using hx)] at h
          simpa using h
        refine ⟨[], xs, by simp [hxr], by simp, ?_⟩
        simp [AK_delete_hash_entry_list, hx]
      · rw [AK_search_existing_link_for_hook,
            List.find?_cons_of_neg _ (by simpa using hx)] at h
        obtain ⟨pre, post, ht, hpre, hdel⟩ := ih h
        refine ⟨x :: pre, post, by simp [ht], ?_, ?_⟩
        · intro y hy
          rcases List.mem_cons.mp hy with hy1 | hy2
          · rw [hy1]; exact hx
          · exact hpre y hy2
        · simp [AK_delete_hash_entry_list, hx, hdel]

/-- Witness for `C4_release_keeps_record`: releasing T1's lock on block
100 keeps the record's address in the table, and
`AK_delete_hash_entry_list` removes the (empty-queue) record when it is
called. -/
theorem C4_witness :
    ((applyLockOp
        [⟨100, LockType.SHARED_LOCK,
          [⟨1, LockType.SHARED_LOCK, LockStatus.PASS_LOCK_QUEUE⟩]⟩]
        (LockOp.release 100 1)).map AK_transaction_elem.address =
      ([⟨100, LockType.SHARED_LOCK,
          [⟨1, LockType.SHARED_LOCK, LockStatus.PASS_LOCK_QUEUE⟩]⟩] :
        LockTable).map AK_transaction_elem.address) ∧
    (∃ pre post,
      ([⟨100, LockType.SHARED_LOCK, []⟩] : LockTable) =
        pre ++ ⟨100, LockType.SHARED_LOCK, []⟩ :: post ∧
      (∀ x ∈ pre, x.address ≠ 100) ∧
      AK_delete_hash_entry_list [⟨100, LockType.SHARED_LOCK, []⟩] 100 =
        pre ++ post) :=
  ⟨C4_release_keeps_record.1 _ 100 1, C4_release_keeps_record.2 _ 100 _ rfl⟩

/-! # Claims C5, C6, C10: executor and thread pool -/

/-- C5.  The claim — every abort of `AK_execute_commands` releases all
locks the transaction had acquired, including those of earlier commands —
is the spec's explicit contract (§4.5 step 2, §7), and the code's
acquire-failure abort branch does call `AK_release_locks`; but the
lookup-failure abort branch (transaction.c:443-446) returns `ABORT`
without any release.  Failing input: commands `[INSERT into A, SELECT from
B]` where table `A` owns block 7 and `B` is unknown.  The first command
acquires the exclusive lock on block 7; the second command's lookup fails;
the run returns `ABORT` with T1's exclusive lock still granted in the
table. -/
theorem C5_abort_leaves_lock_held :
    AK_execute_commands addrsOfA 1 cmdsAB [] =
      ([⟨7, LockType.EXCLUSIVE_LOCK,
          [⟨1, LockType.EXCLUSIVE_LOCK, LockStatus.PASS_LOCK_QUEUE⟩]⟩],
        TxnResult.ABORT) := by
  decide

/-- Filling the first free slot: the array keeps its length and gains one
occupied slot. -/
theorem setFirstFreeSlot_spec (tid : Nat) :
    ∀ (l l' : List (Option Nat)), setFirstFreeSlot l tid = some l' →
      l'.length = l.length ∧ occupiedSlots l' = occupiedSlots l + 1 := by
  intro l
  induction l with
  | nil => intro l' h; simp [setFirstFreeSlot] at h
  | cons s rest ih =>
    intro l' h
    cases s with
    | none =>
      rw [setFirstFreeSlot] at h
      have hl : l' = some tid :: rest := by simpa using h.symm
      subst hl
      simp [occupiedSlots, List.filter]
    | some x =>
      rw [setFirstFreeSlot] at h
      rcases hrec : setFirstFreeSlot rest tid with _ | l2
      · rw [hrec] at h; simp at h
      · rw [hrec] at h
        have hl : l' = some x :: l2 := by simpa using h.symm
        subst hl
        obtain ⟨hlen, hocc⟩ := ih l2 hrec
        constructor
        · simp [hlen]
        · simp [occupiedSlots, List.filter] at hocc ⊢
          omega

/-- Clearing the first slot holding a thread: the array keeps its length
and loses one occupied slot. -/
theorem clearFirstSlot_spec (tid : Nat) :
    ∀ (l l' : List (Option Nat)), clearFirstSlot l tid = some l' →
      l'.length = l.length ∧ occupiedSlots l = occupiedSlots l' + 1 := by
  intro l
  induction l with
  | nil => intro l' h; simp [clearFirstSlot] at h
  | cons s rest ih =>
    intro l' h
    rw [clearFirstSlot] at h
    by_cases hs : s = some tid
    · rw [if_pos hs] at h
      have hl : l' = none :: rest := by simpa using h.symm
      subst hl
      subst hs
      simp [occupiedSlots, List.filter]
    · rw [if_neg hs] at h
      rcases hrec : clearFirstSlot rest tid with _ | l2
      · rw [hrec] at h; simp at h
      · rw [hrec] at h
        have hl : l' = s :: l2 := by simpa using h.symm
        subst hl
        obtain ⟨hlen, hocc⟩ := ih l2 hrec
        constructor
        · simp [hlen]
        · cases s <;> simp [occupiedSlots, List.filter] at hocc ⊢ <;> omega

/-- Invariant of the thread pool under any step sequence: the slot array
keeps its ten slots and the active count equals the number of occupied
slots. -/
theorem runThreadOps_inv (ops : List ThreadOp) :
    (runThreadOps ops).activeThreads.length = MAX_ACTIVE_TRANSACTIONS_COUNT ∧
    (runThreadOps ops).activeTransactionsCount =
      (occupiedSlots (runThreadOps ops).activeThreads : Int) := by
  suffices h : ∀ (s : ThreadPoolState),
      s.activeThreads.length = MAX_ACTIVE_TRANSACTIONS_COUNT →
      s.activeTransactionsCount = (occupiedSlots s.activeThreads : Int) →
      (ops.foldl applyThreadOp s).activeThreads.length =
          MAX_ACTIVE_TRANSACTIONS_COUNT ∧
        (ops.foldl applyThreadOp s).activeTransactionsCount =
          (occupiedSlots (ops.foldl applyThreadOp s).activeThreads : Int) by
    refine h initThreadPool (by simp [initThreadPool]) ?_
    simp [initThreadPool, occupiedSlots, MAX_ACTIVE_TRANSACTIONS_COUNT,
      List.filter]
  induction ops with
  | nil => intro s h1 h2; exact ⟨h1, h2⟩
  | cons op rest ih =>
    intro s h1 h2
    rw [List.foldl_cons]
    refine ih _ ?_ ?_
    all_goals
      cases op with
      | create tid =>
        simp only [applyThreadOp, AK_create_new_transaction_thread]
        rcases hset : setFirstFreeSlot s.activeThreads tid with _ | l2
        · simpa using ‹_›
        · obtain ⟨hlen, hocc⟩ := setFirstFreeSlot_spec tid _ _ hset
          simp only []
          first
            | rw [hlen]; exact h1
            | rw [hocc, h2]; push_cast; ring
      | remove tid =>
        simp only [applyThreadOp, AK_remove_transaction_thread]
        rcases hclr : clearFirstSlot s.activeThreads tid with _ | l2
        · simpa using ‹_›
        · obtain ⟨hlen, hocc⟩ := clearFirstSlot_spec tid _ _ hclr
          simp only []
          first
            | rw [hlen]; exact h1
            | rw [h2, hocc]; push_cast; ring

/-- C6.  Bounded concurrency holds: in every state reachable by any
sequence of `AK_create_new_transaction_thread` /
`AK_remove_transaction_thread` steps from the initial pool, the active
count is at most 10, the ten-slot array holds at most 10 live entries, and
the array never grows. -/
theorem C6_bounded_concurrency (ops : List ThreadOp) :
    (runThreadOps ops).activeTransactionsCount ≤ 10 ∧
    occupiedSlots (runThreadOps ops).activeThreads ≤ 10 ∧
    (runThreadOps ops).activeThreads.length = 10 := by
  obtain ⟨hlen, hcount⟩ := runThreadOps_inv ops
  have hlen10 : (runThreadOps ops).activeThreads.length = 10 := by
    simpa [MAX_ACTIVE_TRANSACTIONS_COUNT] using hlen
  have hocc : occupiedSlots (runThreadOps ops).activeThreads ≤ 10 := by
    calc occupiedSlots (runThreadOps ops).activeThreads
        ≤ (runThreadOps ops).activeThreads.length :=
          List.length_filter_le _ _
      _ = 10 := hlen10
  refine ⟨?_, hocc, hlen10⟩
  rw [hcount]
  exact_mod_cast hocc

/-- The per-command acquire loop always finishes with `OK`: each
`AK_acquire_lock` returns `OK`, so the `status == NOT_OK` early exit never
fires. -/
theorem acquireBlocks_ok (tid : Nat) (ty : LockType) :
    ∀ (blocks : List Int) (t : LockTable),
      (acquireBlocks tid ty t blocks).2 = Status.OK := by
  intro blocks
  induction blocks with
  | nil => intro t; rfl
  | cons a rest ih =>
    intro t
    rw [acquireBlocks]
    simp [AK_acquire_lock, ih]

/-- An `ABORT` out of the command loop can only come from a failed block
lookup. -/
theorem execute_go_abort (addrsOf : String → List Int) (tid : Nat) :
    ∀ (cmds : List command) (t : LockTable) (addrs : List Int),
      (AK_execute_commands_go addrsOf tid t addrs cmds).2 = TxnResult.ABORT →
      ∃ cmd ∈ cmds, addrsOf cmd.tblName = [] := by
  intro cmds
  induction cmds with
  | nil =>
    intro t addrs h
    simp [AK_execute_commands_go] at h
  | cons cmd rest ih =>
    intro t addrs h
    rw [AK_execute_commands_go] at h
    rcases hblk : AK_get_memory_blocks addrsOf cmd.tblName with _ | blocks
    · refine ⟨cmd, List.mem_cons_self _ _, ?_⟩
      rw [AK_get_memory_blocks] at hblk
      by_cases he : addrsOf cmd.tblName = []
      · exact he
      · rw [if_neg he] at hblk; simp at hblk
    · rw [hblk] at h
      have hok := acquireBlocks_ok tid (modeFor cmd.id_command) blocks t
      simp only [hok] at h
      rw [if_neg (by simp)] at h
      obtain ⟨cmd', hmem, hempty⟩ := ih _ blocks h
      exact ⟨cmd', List.mem_cons_of_mem _ hmem, hempty⟩

/-- C10.  Every terminating call of `AK_acquire_lock` returns `OK` — the
function's only return statement is `return OK;` — and consequently the
executor's acquire-failure abort branch is unreachable: whenever
`AK_execute_commands` returns `ABORT`, some command's address lookup
returned no blocks. -/
theorem C10_acquire_always_ok :
    (∀ (t : LockTable) (a : Int) (ty : LockType) (tid : Nat),
      (AK_acquire_lock t a ty tid).2 = Status.OK) ∧
    (∀ (addrsOf : String → List Int) (tid : Nat) (cmds : List command)
        (t : LockTable),
      (AK_execute_commands addrsOf tid cmds t).2 = TxnResult.ABORT →
      ∃ cmd ∈ cmds, addrsOf cmd.tblName = []) := by
  refine ⟨fun t a ty tid => rfl, ?_⟩
  intro addrsOf tid cmds t habort
  exact execute_go_abort addrsOf tid cmds t [] habort

/-- Witness for `C10_acquire_always_ok`: a concrete acquire returns `OK`,
and the aborting run of `C5_abort_leaves_lock_held`'s input indeed
contains a command whose lookup is empty. -/
theorem C10_witness :
    (AK_acquire_lock [] 7 LockType.EXCLUSIVE_LOCK 1).2 = Status.OK ∧
    ∃ cmd ∈ cmdsAB, addrsOfA cmd.tblName = [] :=
  ⟨C10_acquire_always_ok.1 [] 7 LockType.EXCLUSIVE_LOCK 1,
   C10_acquire_always_ok.2 addrsOfA 1 cmdsAB [] (by decide)⟩

/-! # Claims C7, C8: the subset test and the cascade rule -/

/-- The inner loop of `AK_rel_eq_is_subset` counts the occurrences of one
subset token among the set tokens. -/
theorem foldl_count_eq (b : String) :
    ∀ (ts : List String) (acc : Nat),
      ts.foldl (fun a2 a => if a = b then a2 + 1 else a2) acc =
        acc + ts.count b := by
  intro ts
  induction ts with
  | nil => intro acc; simp
  | cons x rest ih =>
    intro acc
    rw [List.foldl_cons]
    by_cases hx : x = b
    · rw [if_pos hx, ih]
      simp [List.count_cons, hx]
      omega
    · rw [if_neg hx, ih]
      simp [List.count_cons, hx]

/-- The double loop of `AK_rel_eq_is_subset` computes the total number of
matching pairs: the sum, over the subset tokens, of their occurrence
counts among the set tokens. -/
theorem token_id_eq_sum (tset : List String) :
    ∀ (tsub : List String) (acc : Nat),
      tsub.foldl
        (fun acc b => tset.foldl
          (fun a2 a => if a = b then a2 + 1 else a2) acc) acc =
        acc + (tsub.map (fun b => tset.count b)).sum := by
  intro tsub
  induction tsub with
  | nil => intro acc; simp
  | cons b rest ih =>
    intro acc
    rw [List.foldl_cons, foldl_count_eq, ih]
    simp
    omega

/-- Exact characterisation of `AK_rel_eq_is_subset`: success iff the set
token list is at least as long as the subset token list and the number of
matching pairs equals the subset length. -/
theorem isSubset_success_iff (A B : String) :
    AK_rel_eq_is_subset A B = ExitCode.EXIT_SUCCESS ↔
      ((tokensOf B).length ≤ (tokensOf A).length ∧
        ((tokensOf B).map (fun b => (tokensOf A).count b)).sum =
          (tokensOf B).length) := by
  simp only [AK_rel_eq_is_subset]
  rw [token_id_eq_sum]
  split_ifs with h1 h2
  · constructor
    · intro h; simp at h
    · rintro ⟨hle, _⟩; omega
  · constructor
    · intro h; simp at h
    · rintro ⟨_, hsum⟩; omega
  · constructor
    · intro _; exact ⟨by omega, by omega⟩
    · intro _; rfl

/-- C8, counterexample.  The claim — the subset test succeeds iff every
element of B occurs in A, duplicates tolerated on either side — fails in
both directions.  `is_subset("a;a", "a;c")` succeeds although `c` does not
occur in `{a,a}` (the token `a` matches twice and the pair count still
reaches `|B| = 2`), and `is_subset("a;a", "a")` fails although every
element of `{a}` occurs in `{a,a}` (the pair count 2 overshoots
`|B| = 1`). -/
theorem C8_counterexample :
    AK_rel_eq_is_subset "a;a" "a;c" = ExitCode.EXIT_SUCCESS ∧
    "c" ∈ tokensOf "a;c" ∧ "c" ∉ tokensOf "a;a" ∧
    AK_rel_eq_is_subset "a;a" "a" = ExitCode.EXIT_FAILURE ∧
    (∀ b ∈ tokensOf "a", b ∈ tokensOf "a;a") := by
  decide

/-- C8, amended.  `subset(A, B)` succeeds iff `A` tokenises to at least as
many attributes as `B` and the total number of equal pairs of tokens — the
sum over B's tokens of their occurrence counts in A — is exactly the
number of B's tokens.  (For a duplicate-free A this coincides with "every
element of B occurs in A and `|A| ≥ |B|`"; with duplicates on either side
it does not, and the test is not a subset test.)  The lexicographic sort
performed by the source permutes the arrays and does not affect either
quantity. -/
theorem C8_subset_characterisation (A B : String) :
    AK_rel_eq_is_subset A B = ExitCode.EXIT_SUCCESS ↔
      ((tokensOf B).length ≤ (tokensOf A).length ∧
        ((tokensOf B).map (fun b => (tokensOf A).count b)).sum =
          (tokensOf B).length) :=
  isSubset_success_iff A B

/-- C7, counterexample.  The claim — on reading a projection operator with
argument `arg` when the last attribute-set token emitted is `prev_top`,
the rewriter elides `op`/`arg` if `arg`'s attribute set is a subset of
`prev_top`'s — fails on input `π[a;b] π[a] R`: the inner projection's set
`{a}` is a subset of `prev_top = {a,b}` (second conjunct), yet the
rewriter emits the inner `op`/`arg` unchanged (first conjunct) instead of
the elision the claim demands (third conjunct: the claimed output differs).
The code elides in the opposite direction, matching the spec's own
scenario O1. -/
theorem C7_counterexample :
    AK_rel_eq_projection schemaRS cascadeInput = cascadeInput ∧
    (∀ b ∈ tokensOf "a", b ∈ tokensOf "a;b") ∧
    cascadeInput ≠
      [⟨TokType.TYPE_OPERATOR, "p"⟩, ⟨TokType.TYPE_ATTRIBS, "a;b"⟩,
       ⟨TokType.TYPE_OPERAND, "R"⟩] := by
  decide

/-- C7, amended.  On reading a projection operator `op` with argument
`arg` when the token last emitted is an attribute set `prev_top = b`, the
rewriter elides `op`/`arg` exactly when `b` passes the subset test as a
subset of `arg` — i.e. when `arg` has at least as many tokens as
`prev_top` and the matching-pair count equals `prev_top`'s token count —
and otherwise appends `op` and `arg` to the output; the elision direction
is `prev_top ⊆ arg`, not `arg ⊆ prev_top`. -/
theorem C7_cascade_elision (schema : String → List String)
    (temp : List list_node) (op arg : list_node) (rest : List list_node)
    (b : String)
    (hop : op.type = TokType.TYPE_OPERATOR)
    (hpc : dataHead op.data = RO_PROJECTION)
    (hlast : temp.getLast? = some ⟨TokType.TYPE_ATTRIBS, b⟩) :
    relEqGo schema temp (op :: arg :: rest) =
      relEqGo schema
        (if (tokensOf b).length ≤ (tokensOf arg.data).length ∧
            ((tokensOf b).map (fun x => (tokensOf arg.data).count x)).sum =
              (tokensOf b).length
         then temp else temp ++ [op, arg]) rest := by
  rw [relEqGo]
  simp only [hop, hpc, hlast, if_pos rfl]
  by_cases hcnt : (tokensOf b).length ≤ (tokensOf arg.data).length ∧
      ((tokensOf b).map (fun x => (tokensOf arg.data).count x)).sum =
        (tokensOf b).length
  · have hsucc : AK_rel_eq_is_subset arg.data b = ExitCode.EXIT_SUCCESS :=
      (isSubset_success_iff arg.data b).mpr hcnt
    rw [if_pos hcnt]
    simp [hsucc]
  · have hfail : AK_rel_eq_is_subset arg.data b = ExitCode.EXIT_FAILURE := by
      rcases h : AK_rel_eq_is_subset arg.data b
      · exact absurd ((isSubset_success_iff arg.data b).mp h) hcnt
      · rfl
    rw [if_neg hcnt]
    simp [hfail]

/-- Witness for `C7_cascade_elision` at the `π[a;b] π[a] R` input. -/
theorem C7_witness :
    relEqGo schemaRS [pTok, aTok "a;b"] (pTok :: aTok "a" :: [oTok "R"]) =
      relEqGo schemaRS
        (if (tokensOf "a;b").length ≤ (tokensOf (aTok "a").data).length ∧
            ((tokensOf "a;b").map
              (fun x => (tokensOf (aTok "a").data).count x)).sum =
              (tokensOf "a;b").length
         then [pTok, aTok "a;b"]
         else [pTok, aTok "a;b"] ++ [pTok, aTok "a"]) [oTok "R"] :=
  C7_cascade_elision schemaRS [pTok, aTok "a;b"] pTok (aTok "a") [oTok "R"]
    "a;b" rfl rfl rfl

/-! # Claim C9: idempotence of the rewriter -/

theorem getLast?_cons_ne_nil {α : Type} (x : α) :
    ∀ (l : List α), l ≠ [] → (x :: l).getLast? = l.getLast?
  | [], h => absurd rfl h
  | _ :: _, _ => List.getLast?_cons_cons

theorem getLast?_none_iff {α : Type} :
    ∀ (l : List α), l.getLast? = none ↔ l = []
  | [] => by simp
  | [x] => by simp
  | x :: y :: l => by
    rw [List.getLast?_cons_cons, getLast?_none_iff (y :: l)]
    simp

theorem cascadePairs_append :
    ∀ (xs ys : List String),
      cascadePairs (xs ++ ys) = cascadePairs xs ++ cascadePairs ys
  | [], ys => rfl
  | x :: xs, ys => by
    rw [List.cons_append, cascadePairs, cascadePairs, cascadePairs_append xs ys]
    rfl

theorem cascadePairs_getLast? :
    ∀ (ks : List String), (cascadePairs ks).getLast? = ks.getLast?.map aTok
  | [] => rfl
  | [a] => rfl
  | a :: b :: ks => by
    rw [cascadePairs,
        getLast?_cons_ne_nil pTok (aTok a :: cascadePairs (b :: ks))
          (by simp),
        getLast?_cons_ne_nil (aTok a) (cascadePairs (b :: ks))
          (by rw [cascadePairs]; simp),
        cascadePairs_getLast? (b :: ks), List.getLast?_cons_cons]

/-- On a projection-cascade stream the rewriter emits exactly the
projections kept by `keptFold`: the `RO_PROJECTION` case compares each new
attribute list against the last one emitted and elides it when the latter
passes the subset test against the former. -/
theorem relEqGo_cascade (schema : String → List String) (tbl : String) :
    ∀ (as ks : List String),
      relEqGo schema (cascadePairs ks) (cascadePairs as ++ [oTok tbl]) =
        cascadePairs (keptFold ks as) ++ [oTok tbl]
  | [], ks => by
    rw [keptFold]
    show relEqGo schema (cascadePairs ks ++ [oTok tbl]) [] =
      cascadePairs ks ++ [oTok tbl]
    rw [relEqGo]
  | a :: as, ks => by
    show relEqGo schema
        (match (cascadePairs ks).getLast? with
          | some te =>
            if te.type = TokType.TYPE_ATTRIBS then
              if AK_rel_eq_is_subset (aTok a).data te.data =
                  ExitCode.EXIT_FAILURE then
                cascadePairs ks ++ [pTok, aTok a]
              else cascadePairs ks
            else cascadePairs ks ++ [pTok, aTok a]
          | none => cascadePairs ks ++ [pTok, aTok a])
        (cascadePairs as ++ [oTok tbl]) =
      cascadePairs (keptFold ks (a :: as)) ++ [oTok tbl]
    rw [keptFold, cascadePairs_getLast?]
    rcases hks : ks.getLast? with _ | b
    · simp only [Option.map_none']
      have h2 : cascadePairs ks ++ [pTok, aTok a] = cascadePairs (ks ++ [a]) := by
        rw [cascadePairs_append]; rfl
      rw [h2, relEqGo_cascade schema tbl as (ks ++ [a])]
    · simp only [Option.map_some']
      rw [if_pos (show (aTok b).type = TokType.TYPE_ATTRIBS from rfl)]
      show relEqGo schema
          (if AK_rel_eq_is_subset a b = ExitCode.EXIT_FAILURE then
            cascadePairs ks ++ [pTok, aTok a]
          else cascadePairs ks)
          (cascadePairs as ++ [oTok tbl]) = _
      rcases hsub : AK_rel_eq_is_subset a b with _ | _
      · -- the previous attribute set passes the subset test: elide
        rw [if_neg (by simp), if_pos rfl, relEqGo_cascade schema tbl as ks]
      · -- otherwise append the projection and its attribute list
        rw [if_pos rfl, if_neg (by simp)]
        have h2 : cascadePairs ks ++ [pTok, aTok a] = cascadePairs (ks ++ [a]) := by
          rw [cascadePairs_append]; rfl
        rw [h2, relEqGo_cascade schema tbl as (ks ++ [a])]

/-- `keptFold` only ever appends an attribute list separated from the last
kept one, so its output is a `cascadeSep` chain. -/
theorem keptFold_chain :
    ∀ (as ks : List String), List.Chain' cascadeSep ks →
      List.Chain' cascadeSep (keptFold ks as)
  | [], ks, h => by rw [keptFold]; exact h
  | a :: as, ks, h => by
    rw [keptFold]
    rcases hks : ks.getLast? with _ | b
    · have hnil : ks = [] := (getLast?_none_iff ks).mp hks
      subst hnil
      exact keptFold_chain as [a] (List.chain'_singleton a)
    · show List.Chain' cascadeSep
        (if AK_rel_eq_is_subset a b = ExitCode.EXIT_SUCCESS then
          keptFold ks as
        else keptFold (ks ++ [a]) as)
      rcases hsub : AK_rel_eq_is_subset a b with _ | _
      · rw [if_pos rfl]
        exact keptFold_chain as ks h
      · rw [if_neg (by simp)]
        refine keptFold_chain as (ks ++ [a]) ?_
        rw [List.chain'_append]
        refine ⟨h, List.chain'_singleton a, ?_⟩
        intro x hx y hy
        simp only [hks, Option.mem_def, Option.some.injEq] at hx
        simp only [List.head?_cons, Option.mem_def, Option.some.injEq] at hy
        subst hx; subst hy
        rw [cascadeSep, hsub]
        simp

/-- Folding a chain of separated attribute lists keeps every one of
them. -/
theorem keptFold_eq_append :
    ∀ (rest ks : List String), List.Chain' cascadeSep ks →
      (∀ b ∈ ks.getLast?, ∀ a ∈ rest.head?, cascadeSep b a) →
      List.Chain' cascadeSep rest →
      keptFold ks rest = ks ++ rest
  | [], ks, _, _, _ => by rw [keptFold]; simp
  | a :: rest, ks, hks, hlink, hrest => by
    rw [keptFold]
    obtain ⟨hhead, hrest'⟩ := List.chain'_cons'.mp hrest
    rcases hlast : ks.getLast? with _ | b
    · have hnil : ks = [] := (getLast?_none_iff ks).mp hlast
      subst hnil
      show keptFold ([] ++ [a]) rest = [] ++ a :: rest
      rw [List.nil_append, List.nil_append,
          keptFold_eq_append rest [a] (List.chain'_singleton a) ?_ hrest']
      · simp
      · intro b hb y hy
        simp only [List.getLast?_singleton, Option.mem_def,
          Option.some.injEq] at hb
        subst hb
        exact hhead y hy
    · have hsep : cascadeSep b a := by
        refine hlink b ?_ a ?_
        · simp [hlast]
        · simp
      have hfail : ¬ AK_rel_eq_is_subset a b = ExitCode.EXIT_SUCCESS := hsep
      show (if AK_rel_eq_is_subset a b = ExitCode.EXIT_SUCCESS then
          keptFold ks rest
        else keptFold (ks ++ [a]) rest) = ks ++ a :: rest
      rw [if_neg hfail]
      rw [keptFold_eq_append rest (ks ++ [a]) ?_ ?_ hrest']
      · simp
      · rw [List.chain'_append]
        refine ⟨hks, List.chain'_singleton a, ?_⟩
        intro x hx y hy
        simp only [hlast, Option.mem_def, Option.some.injEq] at hx
        simp only [List.head?_cons, Option.mem_def, Option.some.injEq] at hy
        subst hx; subst hy
        exact hsep
      · intro x hx y hy
        rw [List.getLast?_concat] at hx
        simp only [Option.mem_def, Option.some.injEq] at hx
        subst hx
        exact hhead y hy

/-- C9, counterexample.  The claim — applying the rewriter twice yields
the same output as applying it once — fails on `π[x] (R ⋈θ[x=y] S)` with
schemas `R(x)` and `S(y)`: the first pass fires theta-join rule 3b and
emits `π[x] π[x] R π[y] S ⋈θ` (first conjunct); the second pass's cascade
rule then elides the pushed-down `π[x]` (second conjunct), so the two
outputs differ (third conjunct). -/
theorem C9_counterexample :
    AK_rel_eq_projection schemaRS thetaInput =
      [⟨TokType.TYPE_OPERATOR, "p"⟩, ⟨TokType.TYPE_ATTRIBS, "x"⟩,
       ⟨TokType.TYPE_OPERATOR, "p"⟩, ⟨TokType.TYPE_ATTRIBS, "x"⟩,
       ⟨TokType.TYPE_OPERAND, "R"⟩,
       ⟨TokType.TYPE_OPERATOR, "p"⟩, ⟨TokType.TYPE_ATTRIBS, "y"⟩,
       ⟨TokType.TYPE_OPERAND, "S"⟩,
       ⟨TokType.TYPE_OPERATOR, "t"⟩, ⟨TokType.TYPE_CONDITION, "`x` `y` ="⟩] ∧
    AK_rel_eq_projection schemaRS (AK_rel_eq_projection schemaRS thetaInput) =
      [⟨TokType.TYPE_OPERATOR, "p"⟩, ⟨TokType.TYPE_ATTRIBS, "x"⟩,
       ⟨TokType.TYPE_OPERAND, "R"⟩,
       ⟨TokType.TYPE_OPERATOR, "p"⟩, ⟨TokType.TYPE_ATTRIBS, "y"⟩,
       ⟨TokType.TYPE_OPERAND, "S"⟩,
       ⟨TokType.TYPE_OPERATOR, "t"⟩, ⟨TokType.TYPE_CONDITION, "`x` `y` ="⟩] ∧
    AK_rel_eq_projection schemaRS (AK_rel_eq_projection schemaRS thetaInput) ≠
      AK_rel_eq_projection schemaRS thetaInput := by
  decide

/-- C9, amended.  The rewriter is idempotent on projection-cascade
streams `π[a₁] … π[aₙ] R` (for every schema, every list of attribute
strings and every operand): one pass keeps exactly the `keptFold`
projections, consecutive kept attribute lists never satisfy the elision
test, and so a second pass changes nothing.  Full idempotence fails when
theta-join rule 3b fires (see `C9_counterexample`): the pushed-down
projection it emits below the outer projection is elided by the cascade
rule on the next pass. -/
theorem C9_idempotent_on_cascade_streams (schema : String → List String)
    (as : List String) (tbl : String) :
    AK_rel_eq_projection schema
        (AK_rel_eq_projection schema (cascadeStream as tbl)) =
      AK_rel_eq_projection schema (cascadeStream as tbl) := by
  have h1 : AK_rel_eq_projection schema (cascadeStream as tbl) =
      cascadeStream (keptFold [] as) tbl := by
    rw [AK_rel_eq_projection, cascadeStream, cascadeStream]
    exact relEqGo_cascade schema tbl as []
  have h2 : AK_rel_eq_projection schema (cascadeStream (keptFold [] as) tbl) =
      cascadeStream (keptFold [] (keptFold [] as)) tbl := by
    rw [AK_rel_eq_projection, cascadeStream, cascadeStream]
    exact relEqGo_cascade schema tbl (keptFold [] as) []
  have h3 : keptFold [] (keptFold [] as) = keptFold [] as := by
    have hch : List.Chain' cascadeSep (keptFold [] as) :=
      keptFold_chain as [] List.chain'_nil
    have h := keptFold_eq_append (keptFold [] as) [] List.chain'_nil
      (by intro b hb; simp at hb) hch
    simpa using h
  rw [h1, h2, h3]

end AkDb
